import Mathlib

/-
Verification of the selection-driven traversal engine of _ProjectMAPPER.py
(a Tkinter project mapping / backup tool).

Shallow embedding conventions:
* A resolved absolute filesystem path is a list of components (`FsPath`);
  `Path.parent` is `List.dropLast` and "P lies at or under R" is list-level
  path component comparison (`startsWithPath`).  Path resolution acting on
  already-canonical paths is the identity; where the source may fail to
  resolve, the model takes an explicit `resolvePath : FsPath → Option FsPath`.
* `folder_tree_item_states` (a Python dict from path string to
  "checked"/"unchecked") is an association list `Store` with first-match
  lookup; `Store.set` models dict assignment.
* Python strings are Lean `String`s; `str.startswith` / `str.endswith` /
  `str.lower` are modelled on the character list (`String.data`) so that
  concrete instances evaluate in the kernel.
* The `while True` ancestor walk of `is_path_effectively_selected` shortens
  the path by one component per iteration, so it is embedded with a fuel
  parameter instantiated at `p.length`, which is always sufficient: the
  zero-fuel branch is unreachable (proved implicitly by the theorems below,
  whose inductions never use it).
-/

/-- Explicit check state of a directory: `S_CHECKED` / `S_UNCHECKED` in the
source. -/
inductive St where
  | checked
  | unchecked
deriving DecidableEq

/-- A resolved absolute filesystem path, as its list of components. -/
abbrev FsPath := List String

/-- The global `folder_tree_item_states` dict: explicit check state per
directory path. -/
abbrev Store := List (FsPath × St)

/-- Dict lookup (`folder_tree_item_states.get(path)`). -/
def Store.get (σ : Store) (p : FsPath) : Option St :=
  (σ.find? (fun e => decide (e.1 = p))).map (fun e => e.2)

/-- Dict lookup with default (`dict.get(path, default)`). -/
def Store.getD (σ : Store) (p : FsPath) (d : St) : St :=
  (Store.get σ p).getD d

/-- Dict assignment (`folder_tree_item_states[path] = s`). -/
def Store.set (σ : Store) (p : FsPath) (s : St) : Store :=
  σ.filter (fun e => !(decide (e.1 = p))) ++ [(p, s)]

/-- `r` is a list-level component-wise path start of `p`: the model of
"`p` equals `r` or lies under `r`" (`Path.relative_to` succeeding). -/
def startsWithPath : FsPath → FsPath → Bool
  | [], _ => true
  | _ :: _, [] => false
  | a :: as, b :: bs => a == b && startsWithPath as bs

/-- The `while True` ancestor walk of `is_path_effectively_selected`
(lines 762-780 of the source), with fuel.  Each loop iteration either
returns or moves to `p.parent` (= `dropLast`), so fuel `p.length` always
suffices. -/
def effChainGo (σ : Store) (root : FsPath) : Nat → FsPath → Bool
  | fuel, p =>
    let st := Store.get σ p
    if st = some St.unchecked then false
    else if st = none ∧ p ≠ root then false
    else if p = root then decide (Store.getD σ root St.checked = St.checked)
    else if p.dropLast = p then false
    else
      match fuel with
      | 0 => false
      | m + 1 => effChainGo σ root m p.dropLast

/-- The ancestor walk started at `p` itself. -/
def effChain (σ : Store) (root p : FsPath) : Bool :=
  effChainGo σ root p.length p

/-- `is_path_effectively_selected(path_to_check, project_root)`.
`isDir` models `project_root.is_dir()`, `resolvePath` models `.resolve()`
(`none` = the call raised). -/
def is_path_effectively_selected (σ : Store) (isDir : FsPath → Bool)
    (resolvePath : FsPath → Option FsPath)
    (path_to_check : FsPath) (project_root : Option FsPath) : Bool :=
  match project_root with
  | none => false
  | some root0 =>
    if !(isDir root0) then false
    else
      match resolvePath path_to_check, resolvePath root0 with
      | some p, some root =>
        if p ≠ root ∧ startsWithPath root p = false then false
        else effChain σ root p
      | _, _ => false

/- ---------------------------------------------------------------------
Spec-side definitions for C1, written from the spec's words: "`path` lies
at or under `root` and every directory on the path from `root` to `path`
inclusive has explicit state `Checked`; a missing explicit state for any
non-root directory on that chain is treated as `Unchecked`; the root's own
default, if absent, is `Checked`".
--------------------------------------------------------------------- -/

/-- The chain of directories from `r` down to `p` inclusive (empty when `p`
is not at or under `r`), again with fuel `p.length`. -/
def chainGo (r : FsPath) : Nat → FsPath → List FsPath
  | fuel, p =>
    if p = r then [p]
    else if startsWithPath r p then
      match fuel with
      | 0 => []
      | m + 1 => chainGo r m p.dropLast ++ [p]
    else []

/-- The chain of directories from `r` down to `p` inclusive. -/
def chainBetween (r p : FsPath) : List FsPath :=
  chainGo r p.length p

/-- Spec reading of "this directory counts as Checked": the root defaults to
`Checked` when absent, every other directory must be explicitly `Checked`
(absent means `Unchecked`). -/
def specNodeChecked (σ : Store) (r q : FsPath) : Bool :=
  if q = r then decide (Store.getD σ r St.checked = St.checked)
  else decide (Store.get σ q = some St.checked)

/-- Spec-side effective selection: `p` at or under `r` and the whole chain
counts as Checked. -/
def specEffectivelySelected (σ : Store) (r p : FsPath) : Bool :=
  startsWithPath r p && (chainBetween r p).all (specNodeChecked σ r)

/- ------------------------- path lemmas ------------------------- -/

theorem startsWithPath_refl (p : FsPath) : startsWithPath p p = true := by
  induction p with
  | nil => rfl
  | cons a as ih => simp [startsWithPath, ih]

theorem eq_nil_of_startsWithPath_nil {r : FsPath}
    (h : startsWithPath r [] = true) : r = [] := by
  cases r with
  | nil => rfl
  | cons a as => simp [startsWithPath] at h

theorem length_le_of_startsWithPath :
    ∀ {r p : FsPath}, startsWithPath r p = true → r.length ≤ p.length := by
  intro r
  induction r with
  | nil => intro p _; simp
  | cons a as ih =>
    intro p h
    cases p with
    | nil => simp [startsWithPath] at h
    | cons b bs =>
      simp only [startsWithPath, Bool.and_eq_true, beq_iff_eq] at h
      simpa using ih h.2

theorem startsWithPath_dropLast :
    ∀ {r p : FsPath}, startsWithPath r p = true → r ≠ p →
      startsWithPath r p.dropLast = true := by
  intro r
  induction r with
  | nil => intro p _ _; rfl
  | cons a as ih =>
    intro p h hne
    cases p with
    | nil => simp [startsWithPath] at h
    | cons b bs =>
      simp only [startsWithPath, Bool.and_eq_true, beq_iff_eq] at h
      obtain ⟨hab, h2⟩ := h
      cases bs with
      | nil =>
        have : as = [] := eq_nil_of_startsWithPath_nil h2
        subst this; subst hab
        exact absurd rfl hne
      | cons c cs =>
        have hne2 : as ≠ c :: cs := by
          intro hcc
          apply hne
          rw [hab, hcc]
        have := ih h2 hne2
        simpa [startsWithPath, List.dropLast, hab] using this

theorem startsWithPath_trans :
    ∀ {r d p : FsPath}, startsWithPath r d = true →
      startsWithPath d p = true → startsWithPath r p = true := by
  intro r
  induction r with
  | nil => intro d p _ _; rfl
  | cons a as ih =>
    intro d p h1 h2
    cases d with
    | nil => simp [startsWithPath] at h1
    | cons b bs =>
      cases p with
      | nil => simp [startsWithPath] at h2
      | cons c cs =>
        simp only [startsWithPath, Bool.and_eq_true, beq_iff_eq] at h1 h2 ⊢
        exact ⟨h1.1.trans h2.1, ih h1.2 h2.2⟩

theorem startsWithPath_append_drop :
    ∀ {r p : FsPath}, startsWithPath r p = true →
      r ++ p.drop r.length = p := by
  intro r
  induction r with
  | nil => intro p _; simp
  | cons a as ih =>
    intro p h
    cases p with
    | nil => simp [startsWithPath] at h
    | cons b bs =>
      simp only [startsWithPath, Bool.and_eq_true, beq_iff_eq] at h
      simp [h.1, ih h.2]

theorem dropLast_ne_self {p : FsPath} (h : p ≠ []) : p.dropLast ≠ p := by
  intro heq
  have hlen := congrArg List.length heq
  rw [List.length_dropLast] at hlen
  have : 0 < p.length := List.length_pos.mpr h
  omega

/- ------------------------- C1 ------------------------- -/

theorem effChainGo_self (σ : Store) (r : FsPath) (fuel : Nat) :
    effChainGo σ r fuel r = decide (Store.getD σ r St.checked = St.checked) := by
  rw [effChainGo.eq_def]
  rcases h : Store.get σ r with _ | st
  · simp [h, Store.getD]
  · cases st with
    | checked => simp [h, Store.getD]
    | unchecked => simp [h, Store.getD]

theorem effChainGo_eq_chainGo (σ : Store) (r : FsPath) :
    ∀ fuel p, p.length ≤ fuel → startsWithPath r p = true →
      effChainGo σ r fuel p = (chainGo r fuel p).all (specNodeChecked σ r) := by
  intro fuel
  induction fuel with
  | zero =>
    intro p hlen hpre
    have hp : p = [] := List.length_eq_zero.mp (Nat.le_zero.mp hlen)
    subst hp
    have hr : r = [] := eq_nil_of_startsWithPath_nil hpre
    subst hr
    rw [effChainGo_self, chainGo]
    simp [specNodeChecked]
  | succ m ih =>
    intro p hlen hpre
    by_cases hpr : p = r
    · subst hpr
      rw [effChainGo_self, chainGo]
      simp [specNodeChecked]
    · have hpnil : p ≠ [] := by
        intro hnil
        subst hnil
        exact hpr (eq_nil_of_startsWithPath_nil hpre).symm
      rw [effChainGo, chainGo]
      simp only [hpr, if_false, hpre, if_true]
      rw [List.all_append]
      have hnode : specNodeChecked σ r p = decide (Store.get σ p = some St.checked) := by
        simp [specNodeChecked, hpr]
      rcases h : Store.get σ p with _ | st
      · simp [h, hpr, hnode]
      · cases st with
        | unchecked => simp [h, hnode]
        | checked =>
          have hdl : p.dropLast ≠ p := dropLast_ne_self hpnil
          have hlen1 : 0 < p.length := List.length_pos.mpr hpnil
          have hrec := ih p.dropLast
            (by rw [List.length_dropLast]; omega)
            (startsWithPath_dropLast hpre (fun he => hpr he.symm))
          simp [h, hnode, hpr, hdl, hrec]

/-- C1: `is_path_effectively_selected(P, R)` (with a valid root and with path
resolution the identity, paths being canonical in the model) returns true iff
`P` lies at or under `R` and every directory on the chain from `R` down to
`P` inclusive counts as `Checked`, where a missing explicit state for a
non-root directory on the chain is `Unchecked` (fail closed) and the root
itself defaults to `Checked`; hence any `Unchecked` ancestor on the chain
forces the result false regardless of `P`'s own stored state. -/
theorem c1_effective_selection_iff_chain (σ : Store) (r p : FsPath) :
    is_path_effectively_selected σ (fun _ => true) (fun q => some q) p (some r)
      = specEffectivelySelected σ r p := by
  unfold is_path_effectively_selected specEffectivelySelected
  rcases hpre : startsWithPath r p with _ | _
  · have hpr : p ≠ r := by
      intro he
      rw [he, startsWithPath_refl] at hpre
      exact Bool.noConfusion hpre
    simp [hpr, hpre]
  · have := effChainGo_eq_chainGo σ r p.length p (le_refl _) hpre
    simp only [hpre, Bool.true_and]
    simp [effChain, chainBetween, this]

/- ------------------------- store lemmas ------------------------- -/

theorem find?_append_store (l₁ l₂ : Store) (f : FsPath × St → Bool) :
    (l₁ ++ l₂).find? f =
      match l₁.find? f with
      | some e => some e
      | none => l₂.find? f := by
  induction l₁ with
  | nil => simp
  | cons a t ih =>
    cases hfa : f a with
    | true => simp [List.find?_cons, hfa]
    | false => simp [List.find?_cons, hfa, ih]

theorem find?_filter_key_ne (σ : Store) (p q : FsPath) (h : q ≠ p) :
    (σ.filter (fun e => !(decide (e.1 = p)))).find? (fun e => decide (e.1 = q))
      = σ.find? (fun e => decide (e.1 = q)) := by
  induction σ with
  | nil => rfl
  | cons a t ih =>
    by_cases hap : a.1 = p
    · have hpq : ¬(p = q) := fun he => h he.symm
      simp [List.filter, List.find?, hap, hpq, ih]
    · by_cases haq : a.1 = q
      · have hqp : ¬(q = p) := h
        simp [List.filter, List.find?, hap, haq, hqp]
      · simp [List.filter, List.find?, hap, haq, ih]

theorem find?_filter_key_self (σ : Store) (p : FsPath) :
    (σ.filter (fun e => !(decide (e.1 = p)))).find? (fun e => decide (e.1 = p))
      = none := by
  induction σ with
  | nil => rfl
  | cons a t ih =>
    by_cases hap : a.1 = p
    · simp [List.filter, hap, ih]
    · simp [List.filter, List.find?, hap, ih]

theorem Store.get_set_self (σ : Store) (p : FsPath) (s : St) :
    Store.get (Store.set σ p s) p = some s := by
  unfold Store.get Store.set
  rw [find?_append_store, find?_filter_key_self]
  simp [List.find?]

theorem Store.get_set_ne (σ : Store) (p : FsPath) (s : St) (q : FsPath)
    (h : q ≠ p) :
    Store.get (Store.set σ p s) q = Store.get σ q := by
  unfold Store.get Store.set
  rw [find?_append_store, find?_filter_key_ne σ p q h]
  cases hf : σ.find? (fun e => decide (e.1 = q)) with
  | some e => rfl
  | none =>
    have : ¬(p = q) := fun he => h he.symm
    simp [List.find?, this]

/- ------------------------- C3 ------------------------- -/

/-- The toggle of `on_tree_item_click` (lines 704-707): flips the clicked
item's explicit state; untracked items are ignored (logged in the source). -/
def toggleState (σ : Store) (p : FsPath) : Store :=
  match Store.get σ p with
  | none => σ
  | some cur =>
    Store.set σ p (if cur = St.unchecked then St.checked else St.unchecked)

theorem startsWithPath_eq_of_length :
    ∀ {r p : FsPath}, startsWithPath r p = true → p.length ≤ r.length →
      r = p := by
  intro r
  induction r with
  | nil =>
    intro p _ hlen
    exact (List.length_eq_zero.mp (Nat.le_zero.mp hlen)).symm
  | cons a as ih =>
    intro p h hlen
    cases p with
    | nil => simp [startsWithPath] at h
    | cons b bs =>
      simp only [startsWithPath, Bool.and_eq_true, beq_iff_eq] at h
      simp only [List.length_cons, Nat.succ_le_succ_iff] at hlen
      rw [h.1, ih h.2 hlen]

theorem effChainGo_false_of_unchecked_ancestor (σ : Store) (r d : FsPath)
    (hget : Store.get σ d = some St.unchecked)
    (hrd : startsWithPath r d = true) :
    ∀ fuel p, p.length ≤ fuel → startsWithPath d p = true →
      effChainGo σ r fuel p = false := by
  intro fuel
  induction fuel with
  | zero =>
    intro p hlen hdp
    have hp : p = [] := List.length_eq_zero.mp (Nat.le_zero.mp hlen)
    subst hp
    have hd : d = [] := eq_nil_of_startsWithPath_nil hdp
    rw [effChainGo.eq_def]
    simp [hd ▸ hget]
  | succ m ih =>
    intro p hlen hdp
    by_cases hpd : p = d
    · subst hpd
      rw [effChainGo.eq_def]
      simp [hget]
    · have hpnil : p ≠ [] := by
        intro hnil
        subst hnil
        exact hpd (eq_nil_of_startsWithPath_nil hdp).symm
      have hdltp : d.length < p.length := by
        have h1 := length_le_of_startsWithPath hdp
        rcases Nat.lt_or_ge d.length p.length with h | h
        · exact h
        · exact absurd (startsWithPath_eq_of_length hdp h) (fun he => hpd he.symm)
      have hpr : p ≠ r := by
        intro he
        have h2 := length_le_of_startsWithPath hrd
        rw [he] at hdltp
        omega
      rw [effChainGo.eq_def]
      rcases hst : Store.get σ p with _ | st
      · simp [hst, hpr]
      · cases st with
        | unchecked => simp [hst]
        | checked =>
          have hdl : p.dropLast ≠ p := dropLast_ne_self hpnil
          have hrec := ih p.dropLast
            (by rw [List.length_dropLast]; omega)
            (startsWithPath_dropLast hdp (fun he => hpd he.symm))
          simp [hst, hpr, hdl, hrec]

/-- C3: toggling a tracked directory `D` (currently `Checked`) under root `R`
to `Unchecked` makes effective selection false for `D` itself and every
descendant of `D`, while the toggle changes only `D`'s own stored entry:
every other path's stored explicit state is unchanged (lazy containment, no
eager rewrite of descendants). -/
theorem c3_toggle_unchecked_kills_descendants_frame
    (σ : Store) (r d : FsPath) (i : FsPath → Bool)
    (hd : Store.get σ d = some St.checked)
    (hrd : startsWithPath r d = true) :
    (∀ p, startsWithPath d p = true →
        is_path_effectively_selected (toggleState σ d) i (fun q => some q) p
          (some r) = false)
    ∧ (∀ q, q ≠ d →
        Store.get (toggleState σ d) q = Store.get σ q) := by
  have hσ' : toggleState σ d = Store.set σ d St.unchecked := by
    unfold toggleState
    rw [hd]
    rfl
  constructor
  · intro p hdp
    have hget' : Store.get (toggleState σ d) d = some St.unchecked := by
      rw [hσ']
      exact Store.get_set_self σ d St.unchecked
    unfold is_path_effectively_selected
    cases hi : i r with
    | false => simp [hi]
    | true =>
      simp only [hi, Bool.not_true, if_false]
      rcases hpre : startsWithPath r p with _ | _
      · have hpr : p ≠ r := by
          intro he
          rw [he, startsWithPath_refl] at hpre
          exact Bool.noConfusion hpre
        simp [hpr, hpre]
      · have := effChainGo_false_of_unchecked_ancestor (toggleState σ d) r d
          hget' hrd p.length p (le_refl _) hdp
        simp [effChain, this]
  · intro q hq
    rw [hσ']
    exact Store.get_set_ne σ d St.unchecked q hq

/-- Witness for C3 at a concrete store: root `proj` checked, `proj/src`
checked, `proj/src/x` checked; after toggling `proj/src`, the descendant
`proj/src/x` is not effectively selected and the root's stored state is
untouched. -/
theorem c3_witness :
    (is_path_effectively_selected
        (toggleState
          [(["proj"], St.checked), (["proj", "src"], St.checked),
            (["proj", "src", "x"], St.checked)]
          ["proj", "src"])
        (fun _ => true) (fun q => some q) ["proj", "src", "x"]
        (some ["proj"]) = false)
    ∧ (Store.get
        (toggleState
          [(["proj"], St.checked), (["proj", "src"], St.checked),
            (["proj", "src", "x"], St.checked)]
          ["proj", "src"])
        ["proj"]
        = Store.get
            [(["proj"], St.checked), (["proj", "src"], St.checked),
              (["proj", "src", "x"], St.checked)]
            ["proj"]) := by
  constructor
  · exact (c3_toggle_unchecked_kills_descendants_frame
      [(["proj"], St.checked), (["proj", "src"], St.checked),
        (["proj", "src", "x"], St.checked)]
      ["proj"] ["proj", "src"] (fun _ => true) (by decide) (by decide)).1
      ["proj", "src", "x"] (by decide)
  · exact (c3_toggle_unchecked_kills_descendants_frame
      [(["proj"], St.checked), (["proj", "src"], St.checked),
        (["proj", "src", "x"], St.checked)]
      ["proj"] ["proj", "src"] (fun _ => true) (by decide) (by decide)).2
      ["proj"] (by decide)

/-- C10: `is_path_effectively_selected` fails closed: it returns false
(without raising - the model is a total function) whenever the project root
is `None`, or the root is not an existing directory, or resolving either
path fails, or the resolved path does not lie at or under the resolved
root. -/
theorem c10_fail_closed_guards (σ : Store) (i : FsPath → Bool)
    (res : FsPath → Option FsPath) (p r : FsPath) :
    (is_path_effectively_selected σ i res p none = false)
    ∧ (i r = false → is_path_effectively_selected σ i res p (some r) = false)
    ∧ (res p = none → is_path_effectively_selected σ i res p (some r) = false)
    ∧ (res r = none → is_path_effectively_selected σ i res p (some r) = false)
    ∧ (∀ p2 r2, res p = some p2 → res r = some r2 → p2 ≠ r2 →
        startsWithPath r2 p2 = false →
        is_path_effectively_selected σ i res p (some r) = false) := by
  refine ⟨rfl, ?_, ?_, ?_, ?_⟩
  · intro h
    simp [is_path_effectively_selected, h]
  · intro h
    cases hi : i r with
    | false => simp [is_path_effectively_selected, hi]
    | true =>
      cases hr : res r with
      | none => simp [is_path_effectively_selected, hi, h, hr]
      | some r2 => simp [is_path_effectively_selected, hi, h, hr]
  · intro h
    cases hi : i r with
    | false => simp [is_path_effectively_selected, hi]
    | true =>
      cases hp : res p with
      | none => simp [is_path_effectively_selected, hi, h, hp]
      | some p2 => simp [is_path_effectively_selected, hi, h, hp]
  · intro p2 r2 hp hr hne hpre
    cases hi : i r with
    | false => simp [is_path_effectively_selected, hi]
    | true => simp [is_path_effectively_selected, hi, hp, hr, hne, hpre]

/-- Witness for C10: each guard exercised at a concrete input. -/
theorem c10_witness :
    (is_path_effectively_selected [] (fun _ => true) (fun q => some q)
        ["a"] none = false)
    ∧ (is_path_effectively_selected [] (fun _ => false) (fun q => some q)
        ["a"] (some ["b"]) = false)
    ∧ (is_path_effectively_selected [] (fun _ => true) (fun _ => none)
        ["a"] (some ["b"]) = false)
    ∧ (is_path_effectively_selected [] (fun _ => true) (fun q => some q)
        ["a"] (some ["b"]) = false) := by
  refine ⟨?_, ?_, ?_, ?_⟩
  · exact (c10_fail_closed_guards [] (fun _ => true) (fun q => some q)
      ["a"] ["b"]).1
  · exact (c10_fail_closed_guards [] (fun _ => false) (fun q => some q)
      ["a"] ["b"]).2.1 rfl
  · exact (c10_fail_closed_guards [] (fun _ => true) (fun _ => none)
      ["a"] ["b"]).2.2.1 rfl
  · exact (c10_fail_closed_guards [] (fun _ => true) (fun q => some q)
      ["a"] ["b"]).2.2.2.2 ["a"] ["b"] rfl rfl (by decide) (by decide)

/- ------------------------- C4: persistence ------------------------- -/

/-- A key of the persisted `folder_states` JSON object: a root-relative path
(the usual case; the empty component list prints as ".") or an absolute-path
fallback for entries that cannot be made relative. -/
inductive Key where
  | rel : FsPath → Key
  | abs : FsPath → Key
deriving DecidableEq

/-- The persisted per-project JSON document. -/
structure Config where
  folder_states : List (Key × St)
  dynamic_file_exclusions : List String

/-- Insertion step of a stable string sort (models Python `sorted`; order is
irrelevant to the claims, only membership is used). -/
def insertLe {α : Type} (le : α → α → Bool) (a : α) : List α → List α
  | [] => [a]
  | b :: bs => if le a b then a :: b :: bs else b :: insertLe le a bs

/-- Sorting by insertion (models Python `sorted`). -/
def sortLe {α : Type} (le : α → α → Bool) : List α → List α
  | [] => []
  | a :: as => insertLe le a (sortLe le as)

/-- `save_project_config` (lines 362-404): each tracked path that lies at or
under the project root is stored root-relative, anything else is kept
verbatim as an absolute fallback; the dynamic exclusion set is saved as
`sorted(list(set(...)))`.  File I/O and its error logging are elided. -/
def save_project_config (project_root : FsPath) (σ : Store)
    (dyn : List String) : Config :=
  { folder_states :=
      σ.map (fun e =>
        if startsWithPath project_root e.1 then
          (Key.rel (e.1.drop project_root.length), e.2)
        else (Key.abs e.1, e.2)),
    dynamic_file_exclusions := sortLe (fun a b => decide (a ≤ b)) dyn.dedup }

/-- `project_root.joinpath(key).resolve()`: a relative key is appended to
the root, an absolute key replaces the root (Python `joinpath` semantics);
resolution of these canonical paths is the identity. -/
def decodeKey (project_root : FsPath) : Key → FsPath
  | Key.rel c => project_root ++ c
  | Key.abs c => c

/-- `load_project_config` (lines 406-466): every entry is resolved against
the project root into an absolute path (states other than
checked/unchecked are skipped in the source; the model's `St` has only
those two values); the dynamic exclusion set is replaced by the stored
list.  Returns (folder states, dynamic exclusions). -/
def load_project_config (project_root : FsPath) (cfg : Config) :
    Store × List String :=
  (cfg.folder_states.map (fun e => (decodeKey project_root e.1, e.2)),
   cfg.dynamic_file_exclusions)

theorem mem_insertLe {α : Type} (le : α → α → Bool) (a b : α) :
    ∀ l : List α, b ∈ insertLe le a l ↔ b ∈ l ∨ b = a := by
  intro l
  induction l with
  | nil => simp [insertLe]
  | cons c cs ih =>
    by_cases h : le a c = true
    · simp [insertLe, h]
      tauto
    · simp [insertLe, h, ih]
      tauto

theorem mem_sortLe {α : Type} (le : α → α → Bool) (b : α) :
    ∀ l : List α, b ∈ sortLe le l ↔ b ∈ l := by
  intro l
  induction l with
  | nil => simp [sortLe]
  | cons c cs ih =>
    simp [sortLe, mem_insertLe, ih]
    tauto

theorem load_save_states (root : FsPath) (σ : Store) (dyn : List String) :
    (load_project_config root (save_project_config root σ dyn)).1 = σ := by
  unfold load_project_config save_project_config
  simp only
  induction σ with
  | nil => rfl
  | cons e t ih =>
    simp only [List.map_cons, List.cons.injEq]
    refine ⟨?_, ih⟩
    by_cases hsw : startsWithPath root e.1 = true
    · simp [hsw, decodeKey, startsWithPath_append_drop hsw]
    · simp [hsw, decodeKey]

/-- C4: persist-then-reload round trip.  Saving the selection store and the
dynamic exclusion set for root `R` and reloading against the same root
reproduces the stored states exactly - hence the same
`is_path_effectively_selected` result for every previously tracked path -
and the same dynamic exclusion set (as a set). -/
theorem c4_save_load_roundtrip (root : FsPath) (σ : Store)
    (dyn : List String) :
    ((load_project_config root (save_project_config root σ dyn)).1 = σ)
    ∧ (∀ i res p pr,
        is_path_effectively_selected
          (load_project_config root (save_project_config root σ dyn)).1
          i res p pr
          = is_path_effectively_selected σ i res p pr)
    ∧ (∀ s, s ∈ (load_project_config root (save_project_config root σ dyn)).2
        ↔ s ∈ dyn) := by
  have h := load_save_states root σ dyn
  refine ⟨h, fun i res p pr => by rw [h], fun s => ?_⟩
  unfold load_project_config save_project_config
  simp [mem_sortLe, List.mem_dedup]

/- ------------------------- string helpers ------------------------- -/

/-- Character-list test that the second list begins with the first
(helper for `str.startswith` / `str.endswith`). -/
def charsBegin : List Char → List Char → Bool
  | [], _ => true
  | _ :: _, [] => false
  | a :: as, b :: bs => a == b && charsBegin as bs

/-- Python `s.startswith(pre)`. -/
def strStarts (s pre : String) : Bool := charsBegin pre.data s.data

/-- Python `s.endswith(suf)`: `suf` is a suffix of `s`. -/
def strEnds (s suf : String) : Bool := charsBegin suf.data.reverse s.data.reverse

/-- Python `s.lower()` (the strings involved are ASCII). -/
def strLower (s : String) : String := String.mk (s.data.map Char.toLower)

/- ------------------------- C2: exclusion matcher ------------------------- -/

/-- `PREDEFINED_EXCLUDED_FILENAMES` (lines 54-57). -/
def PREDEFINED_EXCLUDED_FILENAMES : List String :=
  ["package-lock.json", "yarn.lock", ".DS_Store", "Thumbs.db",
   "*.pyc", "*.pyo", "*.swp", "*.swo"]

/-- One iteration of the loop body of `should_exclude_file` (lines 959-967):
empty patterns are skipped; a pattern starting with `*.` matches when the
filename ends with `pattern[1:]`; any other pattern matches only the exact
filename. -/
def patternExcludes (filename pat : String) : Bool :=
  if pat == "" then false
  else if strStarts pat "*." then strEnds filename (String.mk (pat.data.drop 1))
  else pat == filename

/-- `should_exclude_file(filename)` (lines 948-968): true iff some pattern
of the union of the predefined and dynamic exclusion sets matches.  The
dynamic set `dynamic_global_excluded_filenames` is the `dyn` argument. -/
def should_exclude_file (dyn : List String) (filename : String) : Bool :=
  (PREDEFINED_EXCLUDED_FILENAMES ++ dyn).any
    (fun pat => patternExcludes filename pat)

/-- Spec-side matching rule, from the spec's words: "if the pattern starts
with `*.`, exclude when the filename ends with the pattern's suffix
(case-sensitive); otherwise exclude only on an exact filename match". -/
def specPatternMatches (filename pat : String) : Bool :=
  if strStarts pat "*." then strEnds filename (String.mk (pat.data.drop 1))
  else pat == filename

theorem any_congr_of_mem {α : Type} (f g : α → Bool) :
    ∀ l : List α, (∀ a ∈ l, f a = g a) → l.any f = l.any g := by
  intro l
  induction l with
  | nil => intro _; rfl
  | cons a t ih =>
    intro h
    simp only [List.any_cons]
    rw [h a (List.mem_cons_self a t), ih (fun b hb => h b (List.mem_cons_of_mem a hb))]

/-- C2: `should_exclude_file(F)` is true iff some pattern of the union of
the predefined and dynamic exclusion sets matches `F` under the spec's
matching rule (given that the dynamic set holds no empty pattern; the
source skips empty patterns and its add-path strips and rejects them), and
the spec's three concrete instances hold: `foo.pyc` is excluded by
`*.pyc`, `foo.pyc.bak` is not, and the exact pattern `package-lock.json`
matches only that literal name. -/
theorem c2_should_exclude_file_matching (dyn : List String) (F : String)
    (hdyn : "" ∉ dyn) :
    (should_exclude_file dyn F
      = (PREDEFINED_EXCLUDED_FILENAMES ++ dyn).any (specPatternMatches F))
    ∧ should_exclude_file [] "foo.pyc" = true
    ∧ should_exclude_file [] "foo.pyc.bak" = false
    ∧ (∀ G : String, specPatternMatches G "package-lock.json" = true
        ↔ G = "package-lock.json") := by
  refine ⟨?_, by decide, by decide, ?_⟩
  · unfold should_exclude_file
    apply any_congr_of_mem
    intro pat hmem
    have hne : ¬(pat = "") := by
      rcases List.mem_append.mp hmem with h | h
      · fin_cases h <;> decide
      · intro he
        exact hdyn (he ▸ h)
    have hb : (pat == "") = false := by
      rw [beq_eq_false_iff_ne]
      exact hne
    unfold patternExcludes specPatternMatches
    rw [hb]
    simp
  · intro G
    have hc : strStarts "package-lock.json" "*." = false := by decide
    unfold specPatternMatches
    rw [hc]
    constructor
    · intro h2
      rw [if_neg (by simp)] at h2
      exact (beq_iff_eq.mp h2).symm
    · intro h2
      subst h2
      decide

/-- Witness for C2 at a concrete dynamic set and filename. -/
theorem c2_witness :
    (should_exclude_file ["notes.txt"] "foo.swp"
      = (PREDEFINED_EXCLUDED_FILENAMES ++ ["notes.txt"]).any
          (specPatternMatches "foo.swp"))
    ∧ should_exclude_file [] "foo.pyc" = true := by
  have h := c2_should_exclude_file_matching ["notes.txt"] "foo.swp" (by decide)
  exact ⟨h.1, h.2.1⟩

/- ------------------------- C9: binary detection ------------------------- -/

/-- `FORCE_BINARY_EXTENSIONS_FOR_DUMP` (lines 60-81). -/
def FORCE_BINARY_EXTENSIONS_FOR_DUMP : List String :=
  [".tar.gz", ".gz", ".zip", ".rar", ".7z", ".bz2", ".xz", ".tgz",
   ".png", ".jpg", ".jpeg", ".gif", ".bmp", ".ico", ".webp", ".tif", ".tiff",
   ".mp3", ".wav", ".ogg", ".flac", ".aac", ".m4a",
   ".mp4", ".mkv", ".avi", ".mov", ".webm", ".flv", ".wmv",
   ".pdf", ".doc", ".docx", ".xls", ".xlsx", ".ppt", ".pptx", ".odt",
   ".ods", ".odp",
   ".exe", ".dll", ".so", ".o", ".a", ".lib", ".app", ".dmg", ".deb", ".rpm",
   ".db", ".sqlite", ".mdb", ".accdb", ".dat", ".idx", ".pickle", ".joblib",
   ".pyc", ".pyo", ".class", ".jar", ".wasm",
   ".ttf", ".otf", ".woff", ".woff2",
   ".iso", ".img", ".bin", ".bak", ".data", ".asset", ".pak"]

/-- A file as `is_binary` observes it: its `Path.suffixes` and its readable
content as bytes (`none` when opening/reading raises). -/
structure SourceFile where
  suffixes : List String
  bytes : Option (List Nat)

/-- `is_binary(file_path)` (lines 264-291): known compound suffix
(lowercased) forces binary; otherwise the first 1KB is sniffed for a zero
byte; an unreadable file is conservatively binary (the warning log is
elided). -/
def is_binary (f : SourceFile) : Bool :=
  if FORCE_BINARY_EXTENSIONS_FOR_DUMP.contains
      (strLower (String.join f.suffixes)) then true
  else
    match f.bytes with
    | none => true
    | some bs => (bs.take 1024).contains 0

/-- C9's rule exactly as the claim words it: membership of the compound
suffix itself (not lowercased) in the fixed set, else the zero-byte sniff,
with unreadable files binary. -/
def c9ClaimBinary (f : SourceFile) : Bool :=
  if FORCE_BINARY_EXTENSIONS_FOR_DUMP.contains (String.join f.suffixes) then
    true
  else
    match f.bytes with
    | none => true
    | some bs => (bs.take 1024).contains 0

/-- Counterexample to C9 as stated: a readable `.PNG` file with no zero
byte in its first 1KB is classified binary by the code (the code lowercases
the compound suffix before the set lookup), but the claim's rule - whose
set membership test uses the suffix as-is - classifies it non-binary. -/
theorem c9_counterexample :
    is_binary { suffixes := [".PNG"], bytes := some [65, 66] } = true
    ∧ c9ClaimBinary { suffixes := [".PNG"], bytes := some [65, 66] } = false := by
  constructor
  · decide
  · decide

/-- C9 amended: `is_binary(F)` returns true iff the lowercased form of
`F`'s full compound suffix (all suffixes joined) is in the fixed
binary-extension set, or otherwise the first 1KB of `F`'s content contains
a zero byte; unreadable files are conservatively classified binary. -/
theorem c9_is_binary_amended (f : SourceFile) :
    is_binary f = true ↔
      FORCE_BINARY_EXTENSIONS_FOR_DUMP.contains
          (strLower (String.join f.suffixes)) = true
      ∨ f.bytes = none
      ∨ ∃ bs, f.bytes = some bs ∧ 0 ∈ bs.take 1024 := by
  unfold is_binary
  by_cases hc : FORCE_BINARY_EXTENSIONS_FOR_DUMP.contains
      (strLower (String.join f.suffixes)) = true
  · have hm : strLower (String.join f.suffixes)
        ∈ FORCE_BINARY_EXTENSIONS_FOR_DUMP := List.elem_iff.mp hc
    simp [hc, hm]
  · have hm : strLower (String.join f.suffixes)
        ∉ FORCE_BINARY_EXTENSIONS_FOR_DUMP := fun hmem =>
      hc (List.elem_iff.mpr hmem)
    cases hb : f.bytes with
    | none => simp [hc, hb, hm]
    | some bs => simp [hc, hb, hm, List.elem_iff]

/- ------------------------- C6: scan-time seeding ------------------------- -/

/-- `EXCLUDED_FOLDERS` (lines 49-53). -/
def EXCLUDED_FOLDERS : List String :=
  ["node_modules", ".git", "__pycache__", ".venv", ".mypy_cache",
   "_logs", "dist", "build", ".vscode", ".idea", "target", "out",
   "bin", "obj", "Debug", "Release", "logs"]

/-- Lookup in the `persisted_states` dict, keyed like the source by path
strings; absolute keys and root-relative keys are distinct strings, hence
the `Key` sum. -/
def keyLookup (persisted : List (Key × St)) (k : Key) : Option St :=
  (persisted.find? (fun e => decide (e.1 = k))).map (fun e => e.2)

/-- Seeding of one freshly discovered directory `p` in `_scan_recursive`
(lines 546-552): `persisted_states.get(path_str,
persisted_states.get(relative_path_str, S_CHECKED))`, then forced
`S_UNCHECKED` when the directory's name is a built-in excluded folder and
neither key is persisted. -/
def seedState (persisted : List (Key × St)) (root p : FsPath) : St :=
  let pathLookup := keyLookup persisted (Key.abs p)
  let relLookup := keyLookup persisted (Key.rel (p.drop root.length))
  let initial := pathLookup.getD (relLookup.getD St.checked)
  if p.getLastD "" ∈ EXCLUDED_FOLDERS ∧ pathLookup = none ∧ relLookup = none
  then St.unchecked
  else initial

/-- C6's rule as the spec words it: persisted absolute state first, else
persisted relative state, else Unchecked for a built-in excluded folder
name, else Checked. -/
def specSeedState (persisted : List (Key × St)) (root p : FsPath) : St :=
  match keyLookup persisted (Key.abs p) with
  | some s => s
  | none =>
    match keyLookup persisted (Key.rel (p.drop root.length)) with
    | some s => s
    | none =>
      if p.getLastD "" ∈ EXCLUDED_FOLDERS then St.unchecked else St.checked

/-- C6: every directory newly discovered during a scan is seeded `Checked`
unless a persisted state exists for it (absolute path first, then
root-relative path), in which case that state is used, or its name is in
the built-in excluded-folder set with no persisted entry under either key,
in which case it is seeded `Unchecked`. -/
theorem c6_scan_seeding_rule (persisted : List (Key × St)) (root p : FsPath) :
    seedState persisted root p = specSeedState persisted root p := by
  unfold seedState specSeedState
  cases habs : keyLookup persisted (Key.abs p) with
  | some s => simp [habs]
  | none =>
    cases hrel : keyLookup persisted (Key.rel (p.drop root.length)) with
    | some s => simp [habs, hrel]
    | none =>
      by_cases hm : p.getLastD "" ∈ EXCLUDED_FOLDERS
      · simp [habs, hrel, hm]
      · simp [habs, hrel, hm]

/- ------------------------- C5: tri-state projection ------------------------- -/

/- The tree shape handed to `refresh_tree_visuals`: each treeview node's
path (its item iid) and its children. -/
mutual
inductive ViewNode where
  | node : FsPath → ViewForest → ViewNode
inductive ViewForest where
  | nil : ViewForest
  | cons : ViewNode → ViewForest → ViewForest
end

def ViewNode.path : ViewNode → FsPath
  | ViewNode.node p _ => p

def ViewForest.paths : ViewForest → List FsPath
  | ViewForest.nil => []
  | ViewForest.cons c cs => c.path :: ViewForest.paths cs

/-- The three display projections: `GLYPH_CHECKED` / `GLYPH_UNCHECKED` /
`GLYPH_TRISTATE`. -/
inductive Proj where
  | fullyChecked
  | fullyUnchecked
  | mixed
deriving DecidableEq

/-- The glyph computation of `_update_node_visual_recursive`
(lines 622-651): explicit state defaults to `Unchecked` when untracked; a
node whose parent chain is effectively unchecked, or which is itself
unchecked, shows unchecked; otherwise children tracked in the store decide
checked / mixed (text reconstruction and size-suffix parsing are display
only and elided). -/
def visualGlyph (σ : Store) (parentEffUnchecked : Bool) (p : FsPath)
    (childPaths : List FsPath) : Proj :=
  let st := Store.getD σ p St.unchecked
  if parentEffUnchecked || decide (st = St.unchecked) then Proj.fullyUnchecked
  else if childPaths = [] then Proj.fullyChecked
  else
    let relevant := childPaths.filter (fun c => (Store.get σ c).isSome)
    let checkedCount :=
      (relevant.filter (fun c => decide (Store.get σ c = some St.checked))).length
    if relevant.length = 0 then Proj.fullyChecked
    else if checkedCount = relevant.length then Proj.fullyChecked
    else if checkedCount = 0 then Proj.mixed
    else Proj.mixed

/- `refresh_tree_visuals` walking a node: emit this node's glyph, then the
children under the propagated
`node_is_effectively_unchecked_for_children` flag. -/
mutual
def projectNode (σ : Store) (parentEffUnchecked : Bool) :
    ViewNode → List (FsPath × Proj)
  | ViewNode.node p cs =>
    (p, visualGlyph σ parentEffUnchecked p cs.paths)
      :: projectForest σ
          (parentEffUnchecked
            || decide (Store.getD σ p St.unchecked = St.unchecked)) cs
def projectForest (σ : Store) (flag : Bool) :
    ViewForest → List (FsPath × Proj)
  | ViewForest.nil => []
  | ViewForest.cons c cs => projectNode σ flag c ++ projectForest σ flag cs
end

/-- `refresh_tree_visuals(tree, root_item_id)` (lines 609-689): the root
call passes `parent_effectively_unchecked = False`. -/
def refresh_tree_visuals (σ : Store) (rootNode : ViewNode) :
    List (FsPath × Proj) :=
  projectNode σ false rootNode

/-- Spec-side "this node counts as Unchecked" (explicit state, defaulting
to Unchecked when absent). -/
def specUncheckedHere (σ : Store) (q : FsPath) : Bool :=
  decide (Store.getD σ q St.unchecked = St.unchecked)

/-- Spec-side per-node projection from C5's words: own state Unchecked or
any ancestor Unchecked projects FullyUnchecked; otherwise among tracked
children: none gives FullyChecked, all Checked gives FullyChecked, none
Checked gives Mixed, some but not all gives Mixed. -/
def specGlyph (σ : Store) (ancestors : List FsPath) (p : FsPath)
    (childPaths : List FsPath) : Proj :=
  if specUncheckedHere σ p || ancestors.any (specUncheckedHere σ) then
    Proj.fullyUnchecked
  else
    let tracked := childPaths.filter (fun c => (Store.get σ c).isSome)
    if tracked = [] then Proj.fullyChecked
    else if tracked.all (fun c => decide (Store.get σ c = some St.checked)) then
      Proj.fullyChecked
    else if tracked.all (fun c => !(decide (Store.get σ c = some St.checked)))
    then Proj.mixed
    else Proj.mixed

/- Spec-side projection of the whole tree, carrying the explicit ancestor
list instead of the propagated flag. -/
mutual
def specProjectNode (σ : Store) (ancestors : List FsPath) :
    ViewNode → List (FsPath × Proj)
  | ViewNode.node p cs =>
    (p, specGlyph σ ancestors p cs.paths)
      :: specProjectForest σ (p :: ancestors) cs
def specProjectForest (σ : Store) (ancestors : List FsPath) :
    ViewForest → List (FsPath × Proj)
  | ViewForest.nil => []
  | ViewForest.cons c cs =>
    specProjectNode σ ancestors c ++ specProjectForest σ ancestors cs
end

theorem filter_length_eq_iff_all {α : Type} (f : α → Bool) :
    ∀ l : List α, ((l.filter f).length = l.length) ↔ l.all f = true := by
  intro l
  induction l with
  | nil => simp
  | cons a t ih =>
    cases hfa : f a with
    | true => simp [List.filter, hfa, ih]
    | false =>
      have hle := List.length_filter_le f t
      simp [List.filter, hfa]
      omega

theorem visualGlyph_eq_specGlyph (σ : Store) (anc : List FsPath) (p : FsPath)
    (cps : List FsPath) :
    visualGlyph σ (anc.any (specUncheckedHere σ)) p cps
      = specGlyph σ anc p cps := by
  unfold visualGlyph specGlyph specUncheckedHere
  by_cases h1 : Store.getD σ p St.unchecked = St.unchecked
  · simp [h1]
  · cases h2 : anc.any (fun q => decide (Store.getD σ q St.unchecked = St.unchecked)) with
    | true => simp [h1, h2]
    | false =>
      simp only [h1, h2, decide_eq_true_eq, Bool.or_false, Bool.false_or,
        decide_eq_false_iff_not, not_false_eq_true, if_false, if_true,
        Bool.false_eq_true]
      by_cases hcp : cps = []
      · subst hcp
        simp
      · simp only [hcp, if_false]
        by_cases htr0 : (cps.filter (fun c => (Store.get σ c).isSome)).length = 0
        · have htre : cps.filter (fun c => (Store.get σ c).isSome) = [] :=
            List.length_eq_zero.mp htr0
          simp [htr0, htre]
        · have htre : ¬(cps.filter (fun c => (Store.get σ c).isSome) = []) := by
            intro he
            exact htr0 (by rw [he]; rfl)
          by_cases hall :
              ((cps.filter (fun c => (Store.get σ c).isSome)).filter
                  (fun c => decide (Store.get σ c = some St.checked))).length
                = (cps.filter (fun c => (Store.get σ c).isSome)).length
          · have hallb := (filter_length_eq_iff_all _ _).mp hall
            rw [List.filter_filter] at hall
            simp [htr0, htre, hall, hallb]
          · have hallb :
                ¬((cps.filter (fun c => (Store.get σ c).isSome)).all
                    (fun c => decide (Store.get σ c = some St.checked)) = true) :=
              fun hb => hall ((filter_length_eq_iff_all _ _).mpr hb)
            rw [List.filter_filter] at hall
            simp [htr0, htre, hall, hallb, ite_self]

mutual
theorem projectNode_eq_spec (σ : Store) :
    ∀ (anc : List FsPath) (t : ViewNode),
      projectNode σ (anc.any (specUncheckedHere σ)) t = specProjectNode σ anc t
  | anc, ViewNode.node p cs => by
    have h1 := visualGlyph_eq_specGlyph σ anc p cs.paths
    have h2 := projectForest_eq_spec σ (p :: anc) cs
    have h3 : (anc.any (specUncheckedHere σ)
          || decide (Store.getD σ p St.unchecked = St.unchecked))
        = (p :: anc).any (specUncheckedHere σ) := by
      simp [specUncheckedHere, List.any_cons, Bool.or_comm]
    show (p, visualGlyph σ (anc.any (specUncheckedHere σ)) p cs.paths)
        :: projectForest σ
            (anc.any (specUncheckedHere σ)
              || decide (Store.getD σ p St.unchecked = St.unchecked)) cs
      = (p, specGlyph σ anc p cs.paths) :: specProjectForest σ (p :: anc) cs
    rw [h1, h3, h2]
theorem projectForest_eq_spec (σ : Store) :
    ∀ (anc : List FsPath) (f : ViewForest),
      projectForest σ (anc.any (specUncheckedHere σ)) f
        = specProjectForest σ anc f
  | _, ViewForest.nil => rfl
  | anc, ViewForest.cons c cs => by
    show projectNode σ (anc.any (specUncheckedHere σ)) c
        ++ projectForest σ (anc.any (specUncheckedHere σ)) cs
      = specProjectNode σ anc c ++ specProjectForest σ anc cs
    rw [projectNode_eq_spec σ anc c, projectForest_eq_spec σ anc cs]
end

/-- C5: the display projection computed per node by `refresh_tree_visuals`
follows the tri-state rule: a node whose own explicit state is Unchecked,
or with any Unchecked ancestor up to the root, projects FullyUnchecked;
otherwise, among its tracked children (those present in the selection
store): none projects FullyChecked, all Checked projects FullyChecked, none
Checked projects Mixed (not FullyUnchecked), and some but not all Checked
projects Mixed. -/
theorem c5_refresh_tree_visuals_tristate (σ : Store) (t : ViewNode) :
    refresh_tree_visuals σ t = specProjectNode σ [] t := by
  have h := projectNode_eq_spec σ [] t
  simpa [refresh_tree_visuals] using h

/- ------------------------- C7: scan abort ------------------------- -/

/- The live directory tree as `_scan_recursive` visits it: a directory has
a name, a readability flag (`iterdir` raising PermissionError /
FileNotFoundError when false), and its subdirectories listed in visit
order (the source sorts `iterdir` case-insensitively by name; the model
takes the children already in that order, since no claim depends on the
comparator). -/
mutual
inductive FsDir where
  | dir : String → Bool → FsForest → FsDir
inductive FsForest where
  | nil : FsForest
  | cons : FsDir → FsForest → FsForest
end

/-- One `tree_data` snapshot entry.  Display text, size suffix and `open`
flag are presentation only and elided; the iid structure is kept: the root
entry, a directory entry (parent iid, own iid), an error placeholder
(parent iid, directory name) and the synthetic `timeout_error` abort
marker. -/
inductive Entry where
  | rootE : FsPath → Entry
  | dirE : FsPath → FsPath → Entry
  | errE : FsPath → String → Entry
  | abortE : Entry
deriving DecidableEq

/-- Scanner state threaded through `_scan_recursive`: the snapshot being
built, the seeded store, and two oracles: `clock` - for each
`_scan_recursive` entry, whether elapsed time exceeded
`MAX_SCAN_TIME_SECONDS` at that moment ([] = never again) - and `answers`,
the queued user replies to the continue/abort prompt. -/
structure ScanSt where
  entries : List Entry
  states : Store
  clock : List Bool
  answers : List Bool

/-- The timeout check at the top of `_scan_recursive` (lines 532-539):
when the budget is exceeded the worker blocks for an answer; "continue"
resets the timer (the oracle simply continues), "abort" raises
TimeoutError (second component false); a missing answer behaves like the
messagebox error path, which enqueues False. -/
def checkClock (s : ScanSt) : ScanSt × Bool :=
  match s.clock with
  | [] => (s, true)
  | t :: rest =>
    if t then
      match s.answers with
      | [] => ({ s with clock := rest, answers := [] }, false)
      | a :: ra => ({ s with clock := rest, answers := ra }, a)
    else ({ s with clock := rest }, true)

/- `_scan_recursive(current_path, parent_iid)` (lines 531-563), where
`parent_iid` is always the iid of `current_path` itself.  The second
component of the result is true when a TimeoutError is propagating (the
user chose abort); the per-directory try/except turns an unreadable
directory into an error placeholder and continues. -/
mutual
def scanDir (persisted : List (Key × St)) (root : FsPath) :
    FsDir → FsPath → ScanSt → ScanSt × Bool
  | FsDir.dir name readable children, curPath, s =>
    match checkClock s with
    | (s1, false) => (s1, true)
    | (s1, true) =>
      if readable then
        scanForest persisted root children curPath s1
      else
        ({ s1 with entries := s1.entries ++ [Entry.errE curPath name] },
          false)
def scanForest (persisted : List (Key × St)) (root : FsPath) :
    FsForest → FsPath → ScanSt → ScanSt × Bool
  | FsForest.nil, _, s => (s, false)
  | FsForest.cons d ds, curPath, s =>
    match d with
    | FsDir.dir name _ _ =>
      let childPath := curPath ++ [name]
      let s1 : ScanSt :=
        { s with
          states := Store.set s.states childPath
            (seedState persisted root childPath),
          entries := s.entries ++ [Entry.dirE curPath childPath] }
      match scanDir persisted root d childPath s1 with
      | (s2, true) => (s2, true)
      | (s2, false) => scanForest persisted root ds curPath s2
end

/-- The scan part of `_worker_build_tree_data` (lines 528-573): states are
cleared, the root is seeded from the persisted config (absolute key, then
the "." relative key, default Checked), the root entry is appended, then
`_scan_recursive(project_root, root_path_str)` runs. -/
def scanFromRoot (persisted : List (Key × St)) (rootPath : FsPath)
    (rootDir : FsDir) (clock answers : List Bool) : ScanSt × Bool :=
  scanDir persisted rootPath rootDir rootPath
    { entries := [Entry.rootE rootPath],
      states := Store.set [] rootPath
        ((keyLookup persisted (Key.abs rootPath)).getD
          ((keyLookup persisted (Key.rel [])).getD St.checked)),
      clock := clock, answers := answers }

/-- `_worker_build_tree_data` outcome (lines 575-586): on TimeoutError the
already-collected snapshot gets the single synthetic `timeout_error` entry
appended; the generic `except Exception` branch cannot trigger in the
model (no other exception is represented). -/
def worker_build_tree_data (persisted : List (Key × St)) (rootPath : FsPath)
    (rootDir : FsDir) (clock answers : List Bool) : List Entry × Store :=
  match scanFromRoot persisted rootPath rootDir clock answers with
  | (s2, true) => (s2.entries ++ [Entry.abortE], s2.states)
  | (s2, false) => (s2.entries, s2.states)

theorem checkClock_entries (s : ScanSt) : (checkClock s).1.entries = s.entries := by
  rcases s with ⟨e, st, clk, ans⟩
  cases clk with
  | nil => rfl
  | cons t rest =>
    cases t with
    | false => rfl
    | true =>
      cases ans with
      | nil => rfl
      | cons a ra => rfl

mutual
theorem abortE_not_in_scanDir (persisted : List (Key × St)) (root : FsPath) :
    ∀ (d : FsDir) (cp : FsPath) (s : ScanSt),
      Entry.abortE ∉ s.entries →
      Entry.abortE ∉ ((scanDir persisted root d cp s).1).entries
  | FsDir.dir name readable children, cp, s => by
    intro hs
    rw [scanDir]
    rcases hcc : checkClock s with ⟨s1, b⟩
    have hent : s1.entries = s.entries := by
      have := checkClock_entries s
      rw [hcc] at this
      exact this
    cases b with
    | false => simpa [hent] using hs
    | true =>
      cases readable with
      | true =>
        exact abortE_not_in_scanForest persisted root children cp s1
          (by rw [hent]; exact hs)
      | false =>
        simp only [if_true]
        simp [hent, hs]
theorem abortE_not_in_scanForest (persisted : List (Key × St)) (root : FsPath) :
    ∀ (f : FsForest) (cp : FsPath) (s : ScanSt),
      Entry.abortE ∉ s.entries →
      Entry.abortE ∉ ((scanForest persisted root f cp s).1).entries
  | FsForest.nil, _, s => fun hs => hs
  | FsForest.cons d ds, cp, s => by
    intro hs
    rcases d with ⟨name, readable, children⟩
    rw [scanForest]
    have hs1 : Entry.abortE ∉
        (s.entries ++ [Entry.dirE cp (cp ++ [name])]) := by
      simp [hs]
    rcases hsd : scanDir persisted root (FsDir.dir name readable children)
        (cp ++ [name])
        { s with
          states := Store.set s.states (cp ++ [name])
            (seedState persisted root (cp ++ [name])),
          entries := s.entries ++ [Entry.dirE cp (cp ++ [name])] }
      with ⟨s2, b⟩
    have hne2 : Entry.abortE ∉ s2.entries := by
      have := abortE_not_in_scanDir persisted root
        (FsDir.dir name readable children) (cp ++ [name])
        { s with
          states := Store.set s.states (cp ++ [name])
            (seedState persisted root (cp ++ [name])),
          entries := s.entries ++ [Entry.dirE cp (cp ++ [name])] }
        hs1
      rw [hsd] at this
      exact this
    cases b with
    | true => simpa [hsd] using hne2
    | false =>
      simp only [hsd]
      exact abortE_not_in_scanForest persisted root ds cp s2 hne2
end

/-- C7: when the scan times out and the user's answer is abort, the
resulting tree data ends with exactly one synthetic abort marker: the
marker's count is one and it is the last entry, so no directory entries
appear past the abort point. -/
theorem c7_abort_exactly_one_marker_last (persisted : List (Key × St))
    (rootPath : FsPath) (rootDir : FsDir) (clock answers : List Bool)
    (habort : (scanFromRoot persisted rootPath rootDir clock answers).2
      = true) :
    (worker_build_tree_data persisted rootPath rootDir clock
        answers).1.count Entry.abortE = 1
    ∧ (worker_build_tree_data persisted rootPath rootDir clock
        answers).1.getLast? = some Entry.abortE := by
  unfold worker_build_tree_data
  rcases hs : scanFromRoot persisted rootPath rootDir clock answers
    with ⟨s2, b⟩
  have hb : b = true := by
    have := habort
    rw [hs] at this
    exact this
  subst hb
  have hnotin : Entry.abortE ∉ s2.entries := by
    have h0 : Entry.abortE ∉ [Entry.rootE rootPath] := by simp
    have := abortE_not_in_scanDir persisted rootPath rootDir rootPath
      { entries := [Entry.rootE rootPath],
        states := Store.set [] rootPath
          ((keyLookup persisted (Key.abs rootPath)).getD
            ((keyLookup persisted (Key.rel [])).getD St.checked)),
        clock := clock, answers := answers } h0
    rw [show scanDir persisted rootPath rootDir rootPath
        { entries := [Entry.rootE rootPath],
          states := Store.set [] rootPath
            ((keyLookup persisted (Key.abs rootPath)).getD
              ((keyLookup persisted (Key.rel [])).getD St.checked)),
          clock := clock, answers := answers }
        = (s2, true) from hs] at this
    exact this
  constructor
  · rw [List.count_append]
    rw [List.count_eq_zero.mpr hnotin]
    rfl
  · exact List.getLast?_concat _

/-- Witness for C7: a one-subdirectory project whose scan times out at the
root call and whose user answers abort. -/
theorem c7_witness :
    (worker_build_tree_data [] ["proj"]
        (FsDir.dir "proj" true
          (FsForest.cons (FsDir.dir "a" true FsForest.nil) FsForest.nil))
        [true] [false]).1.count Entry.abortE = 1
    ∧ (worker_build_tree_data [] ["proj"]
        (FsDir.dir "proj" true
          (FsForest.cons (FsDir.dir "a" true FsForest.nil) FsForest.nil))
        [true] [false]).1.getLast? = some Entry.abortE :=
  c7_abort_exactly_one_marker_last [] ["proj"]
    (FsDir.dir "proj" true
      (FsForest.cons (FsDir.dir "a" true FsForest.nil) FsForest.nil))
    [true] [false]
    (by rw [scanFromRoot, scanDir]; rfl)

/- ------------------------- C8: empty backup cleanup ------------------------- -/

/-- Number of files `backup_project_impl` adds to the archive
(lines 1402-1415): zero when the project root itself is not effectively
selected (the walk is skipped and the archive stays empty); otherwise the
number of files the filtered walk collects, abstracted as `walkCount`. -/
def backupFilesAdded (σ : Store) (isDir : FsPath → Bool)
    (res : FsPath → Option FsPath) (root : FsPath) (walkCount : Nat) : Nat :=
  if is_path_effectively_selected σ isDir res root (some root) then walkCount
  else 0

/-- The cleanup decision at the end of `backup_project_impl`
(lines 1417-1424): the archive file, just created by `tarfile.open`,
remains on disk unless zero files were added and it exists with size under
100 bytes (the source's emptiness heuristic `st_size < 100`). -/
def backupArchiveRemains (filesAdded : Nat) (archiveExists : Bool)
    (archiveSizeBytes : Nat) : Bool :=
  if filesAdded > 0 then archiveExists
  else if archiveExists && decide (archiveSizeBytes < 100) then false
  else archiveExists

/-- Counterexample to C8 as stated: a run that adds zero files (the root's
own explicit state is Unchecked) whose created archive file is 120 bytes
is NOT removed - the code deletes the empty archive only when its size is
under 100 bytes, so the claim's unconditional "does not remain on disk"
fails. -/
theorem c8_counterexample :
    backupFilesAdded [(["proj"], St.unchecked)] (fun _ => true)
        (fun q => some q) ["proj"] 5 = 0
    ∧ backupArchiveRemains
        (backupFilesAdded [(["proj"], St.unchecked)] (fun _ => true)
          (fun q => some q) ["proj"] 5) true 120 = true := by
  constructor
  · decide
  · decide

/-- C8 amended: when the project root is not effectively selected the
backup adds zero files, and a zero-file archive is deleted (does not
remain on disk) provided the created archive file is smaller than 100
bytes - the code's empty-archive heuristic. -/
theorem c8_empty_backup_deleted_amended (σ : Store) (i : FsPath → Bool)
    (res : FsPath → Option FsPath) (root : FsPath)
    (walkCount archiveSize : Nat) :
    (is_path_effectively_selected σ i res root (some root) = false →
      backupFilesAdded σ i res root walkCount = 0)
    ∧ (backupFilesAdded σ i res root walkCount = 0 → archiveSize < 100 →
      backupArchiveRemains (backupFilesAdded σ i res root walkCount) true
        archiveSize = false) := by
  constructor
  · intro h
    simp [backupFilesAdded, h]
  · intro h0 hsz
    rw [h0]
    simp [backupArchiveRemains, hsz]

/-- Witness for C8 (amended): root Unchecked, archive 50 bytes - zero
files collected and the archive removed. -/
theorem c8_witness :
    backupFilesAdded [(["proj"], St.unchecked)] (fun _ => true)
        (fun q => some q) ["proj"] 5 = 0
    ∧ backupArchiveRemains
        (backupFilesAdded [(["proj"], St.unchecked)] (fun _ => true)
          (fun q => some q) ["proj"] 5) true 50 = false :=
  ⟨(c8_empty_backup_deleted_amended [(["proj"], St.unchecked)]
      (fun _ => true) (fun q => some q) ["proj"] 5 50).1 (by decide),
   (c8_empty_backup_deleted_amended [(["proj"], St.unchecked)]
      (fun _ => true) (fun q => some q) ["proj"] 5 50).2
      ((c8_empty_backup_deleted_amended [(["proj"], St.unchecked)]
        (fun _ => true) (fun q => some q) ["proj"] 5 50).1 (by decide))
      (by decide)⟩
